import Mathlib

/-!
Verification of the quick-pipreqs directory-processing pipeline.

The Go program scans a directory tree for directories containing a
requirements.txt marker file, backs each marker up, reruns the external
pipreqs command, and reports whether the content changed.  This file
embeds the relevant functions shallowly: filesystems are partial maps
from path strings to file contents, the external command is an opaque
behaviour (an effect on the filesystem, a combined output and an exit
status), and fallible operations return Except values.
-/

namespace QuickPipreqs

/-- A filesystem: a map from exact path strings to file contents
(`none` means the path does not exist). -/
abbrev FS := String → Option String

/-- Path of the marker file inside a directory, as built by
`filepath.Join(dir, "requirements.txt")` in `updateRequirements`. -/
def reqPath (dir : String) : String := dir ++ "/requirements.txt"

/-- Path of the backup file: `reqPath + ".bak"`. -/
def backupPath (dir : String) : String := reqPath dir ++ ".bak"

/-- Model of `os.Remove` with its error ignored: the path is deleted if
present, and nothing happens otherwise. -/
def fsRemove (fs : FS) (p : String) : FS :=
  fun q => if q = p then none else fs q

/-- Model of a successful `os.Rename src dst`: `dst` receives the content
of `src` and `src` disappears. -/
def fsRename (fs : FS) (src dst : String) : FS :=
  fun q => if q = dst then fs src else if q = src then none else fs q

/-- Abstract behaviour of one invocation of the external regeneration
command (`pipreqs .` run in a directory): its effect on the filesystem,
its captured combined output, and whether it exited zero. -/
structure CmdBehavior where
  effect : FS → FS
  output : String
  exitOk : Bool

/-- The failures `updateRequirements` can return: the rename of the
marker file to the backup name failed, or the external command exited
non-zero (carrying its combined output, as the Go code wraps the output
into the returned error). -/
inductive UpdateErr where
  | renameFailed : UpdateErr
  | cmdFailed (output : String) : UpdateErr
deriving DecidableEq

/-- Result of `updateRequirements`: the filesystem afterwards and either
an error or the `changed` flag. -/
structure UpdateResult where
  fs : FS
  result : Except UpdateErr Bool

/-- The tail of `updateRequirements` after the backup step: run the
external command; on non-zero exit return the error wrapping the output;
otherwise stat and hash the marker file again and compute `changed` with
the exact formula of the source:
`(!preExists && postExists) || (preExists && postExists && preHash != postHash)`. -/
def afterCmd (hash : String → String) (cmd : CmdBehavior) (dir : String)
    (preExists : Bool) (preHash : String) (fs1 : FS) : UpdateResult :=
  let fs2 := cmd.effect fs1
  if cmd.exitOk then
    let postExists := (fs2 (reqPath dir)).isSome
    let postHash := (fs2 (reqPath dir)).elim "" hash
    ⟨fs2, .ok ((!preExists && postExists) || (preExists && postExists && (preHash != postHash)))⟩
  else
    ⟨fs2, .error (.cmdFailed cmd.output)⟩

/-- Shallow embedding of `updateRequirements` (main.go lines 199-238).
`hash` abstracts `fileHash` (a digest of the content), `cmd` the external
command, and `renameOk` whether the `os.Rename` of the marker to the
backup succeeds.  In dry-run mode the function returns immediately with
`changed = false` and no effect.  Otherwise: if the marker exists its
hash is taken, any old backup is removed, and the marker is renamed to
the backup name (an error aborts); then the command runs and `changed`
is computed from the before/after existence and digests. -/
def updateRequirements (hash : String → String) (cmd : CmdBehavior) (renameOk : Bool)
    (dir : String) (dryRun : Bool) (fs : FS) : UpdateResult :=
  if dryRun then ⟨fs, .ok false⟩
  else
    match fs (reqPath dir) with
    | none => afterCmd hash cmd dir false "" fs
    | some pre =>
      let fs1 := fsRemove fs (backupPath dir)
      if renameOk then
        afterCmd hash cmd dir true (hash pre)
          (fsRename fs1 (reqPath dir) (backupPath dir))
      else
        ⟨fs1, .error .renameFailed⟩

/-- C4: dry-run performs no filesystem effect, never invokes the command
(the result is the same for every `cmd`), always reports unchanged and
never fails. -/
theorem updateRequirements_dryRun (hash : String → String) (cmd : CmdBehavior)
    (renameOk : Bool) (dir : String) (fs : FS) :
    updateRequirements hash cmd renameOk dir true fs = ⟨fs, .ok false⟩ := rfl

/-- C1: in a live run whose rename and external command succeed, the
returned flag is `ok changed`, and `changed` is true iff the marker was
absent before and present after, or present both before and after with
differing digests. -/
theorem updateRequirements_changed_iff (hash : String → String) (cmd : CmdBehavior)
    (dir : String) (fs : FS) (hcmd : cmd.exitOk = true) :
    ∃ c : Bool, (updateRequirements hash cmd true dir false fs).result = .ok c ∧
      ((c = true) ↔
        ((fs (reqPath dir) = none ∧
            (updateRequirements hash cmd true dir false fs).fs (reqPath dir) ≠ none)
         ∨ (∃ a b, fs (reqPath dir) = some a ∧
            (updateRequirements hash cmd true dir false fs).fs (reqPath dir) = some b ∧
            hash a ≠ hash b))) := by
  cases hpre : fs (reqPath dir) with
  | none =>
    simp only [updateRequirements, hpre, afterCmd, hcmd, if_true, if_false,
      Bool.not_false, Bool.true_and, Bool.false_and, Bool.or_false]
    cases hpost : (cmd.effect fs) (reqPath dir) with
    | none => exact ⟨false, by simp [hpost]⟩
    | some b => exact ⟨true, by simp [hpost]⟩
  | some a =>
    simp only [updateRequirements, hpre, afterCmd, hcmd, if_true, if_false,
      Bool.not_true, Bool.false_and, Bool.true_and, Bool.false_or]
    cases hpost : (cmd.effect (fsRename (fsRemove fs (backupPath dir)) (reqPath dir) (backupPath dir))) (reqPath dir) with
    | none => exact ⟨false, by simp [hpost]⟩
    | some b =>
      refine ⟨hash a != hash b, by simp [hpost], ?_⟩
      simp [hpost, bne_iff_ne]

/-- Witness for C1 at a concrete filesystem: the marker exists with
content x, the command rewrites it to content y; with the identity
digest the run reports changed. -/
theorem updateRequirements_changed_iff_witness :
    ∃ c : Bool,
      (updateRequirements id
        ⟨fun g => fun q => if q = reqPath "d" then some "y" else g q, "", true⟩
        true "d" false (fun q => if q = reqPath "d" then some "x" else none)).result = .ok c ∧
      ((c = true) ↔
        (((fun q => if q = reqPath "d" then some "x" else none) (reqPath "d") = none ∧
            (updateRequirements id
              ⟨fun g => fun q => if q = reqPath "d" then some "y" else g q, "", true⟩
              true "d" false (fun q => if q = reqPath "d" then some "x" else none)).fs (reqPath "d") ≠ none)
         ∨ (∃ a b, (fun q => if q = reqPath "d" then some "x" else none) (reqPath "d") = some a ∧
            (updateRequirements id
              ⟨fun g => fun q => if q = reqPath "d" then some "y" else g q, "", true⟩
              true "d" false (fun q => if q = reqPath "d" then some "x" else none)).fs (reqPath "d") = some b ∧
            id a ≠ id b))) :=
  updateRequirements_changed_iff id
    ⟨fun g => fun q => if q = reqPath "d" then some "y" else g q, "", true⟩
    "d" (fun q => if q = reqPath "d" then some "x" else none) rfl

/-- Length of the backup suffix, used to separate the two paths. -/
theorem reqPath_ne_backupPath (d : String) : reqPath d ≠ backupPath d := by
  intro h
  have h2 := congrArg String.length h
  rw [backupPath, String.length_append] at h2
  have h3 : (".bak" : String).length = 4 := rfl
  omega

/-- C10: when the marker exists and the rename to the backup name fails,
the processor returns the rename error with the marker still at its
original path, but the prior backup file has already been deleted. -/
theorem updateRequirements_rename_failure (hash : String → String) (cmd : CmdBehavior)
    (dir : String) (fs : FS) (a b : String)
    (hpre : fs (reqPath dir) = some a) (hbak : fs (backupPath dir) = some b) :
    (updateRequirements hash cmd false dir false fs).result = .error .renameFailed ∧
    (updateRequirements hash cmd false dir false fs).fs (reqPath dir) = some a ∧
    (updateRequirements hash cmd false dir false fs).fs (backupPath dir) = none := by
  refine ⟨?_, ?_, ?_⟩ <;>
    simp [updateRequirements, hpre, fsRemove, reqPath_ne_backupPath dir]

/-- Witness for C10: a directory with both a marker and a stale backup;
the rename fails, the marker content x survives, the backup content z is
gone. -/
theorem updateRequirements_rename_failure_witness :
    (updateRequirements id ⟨id, "", true⟩ false "d" false
        (fun q => if q = reqPath "d" then some "x" else
          if q = backupPath "d" then some "z" else none)).result = .error .renameFailed ∧
    (updateRequirements id ⟨id, "", true⟩ false "d" false
        (fun q => if q = reqPath "d" then some "x" else
          if q = backupPath "d" then some "z" else none)).fs (reqPath "d") = some "x" ∧
    (updateRequirements id ⟨id, "", true⟩ false "d" false
        (fun q => if q = reqPath "d" then some "x" else
          if q = backupPath "d" then some "z" else none)).fs (backupPath "d") = none :=
  updateRequirements_rename_failure id ⟨id, "", true⟩ "d"
    (fun q => if q = reqPath "d" then some "x" else
      if q = backupPath "d" then some "z" else none) "x" "z"
    (by simp) (by simp [Ne.symm (reqPath_ne_backupPath "d")])

/-- Case-insensitive name comparison, modelling `strings.EqualFold` on
the ASCII names involved: both names are lower-cased character by
character and compared. -/
def eqFold (a b : String) : Bool :=
  a.data.map Char.toLower == b.data.map Char.toLower

/-- Appending on the left is cancellable for strings. -/
theorem string_append_left_cancel {a b c : String} (h : a ++ b = a ++ c) : b = c := by
  have h2 : (a ++ b).data = (a ++ c).data := congrArg String.data h
  simp only [String.data_append] at h2
  exact String.ext (List.append_cancel_left h2)

/-- A file whose name differs from the literal marker name lives at a
different path than the marker. -/
theorem casedPath_ne (dir nm : String) (hne : nm ≠ "requirements.txt") :
    dir ++ "/" ++ nm ≠ reqPath dir := by
  intro h
  apply hne
  apply string_append_left_cancel (a := dir ++ "/")
  calc (dir ++ "/") ++ nm = reqPath dir := h
    _ = (dir ++ "/") ++ "requirements.txt" := by
        apply String.ext
        simp [reqPath, String.data_append]

/-- C9: a directory discovered only through a differently-cased marker
(accepted by the scanner's case-insensitive comparison) is processed as
if the marker were absent: the cased file is neither hashed, backed up
nor renamed (the final filesystem is exactly the command's effect, and
the cased file keeps its content whenever the command leaves it alone),
and `changed` is exactly whether the command created a file at the exact
marker path. -/
theorem updateRequirements_cased_marker (hash : String → String) (cmd : CmdBehavior)
    (renameOk : Bool) (dir nm c : String) (fs : FS)
    (hfold : eqFold nm "requirements.txt" = true)
    (hne : nm ≠ "requirements.txt")
    (hcased : fs (dir ++ "/" ++ nm) = some c)
    (hexact : fs (reqPath dir) = none)
    (hcmd : cmd.exitOk = true)
    (hframe : cmd.effect fs (dir ++ "/" ++ nm) = fs (dir ++ "/" ++ nm)) :
    (updateRequirements hash cmd renameOk dir false fs).fs = cmd.effect fs ∧
    (updateRequirements hash cmd renameOk dir false fs).fs (dir ++ "/" ++ nm) = some c ∧
    (updateRequirements hash cmd renameOk dir false fs).result =
      .ok ((cmd.effect fs (reqPath dir)).isSome) := by
  refine ⟨?_, ?_, ?_⟩ <;>
    simp [updateRequirements, hexact, afterCmd, hcmd, hframe, hcased]

/-- Witness for C9: the only file is `d/Requirements.TXT`; the command
writes nothing, so the run reports unchanged and the cased file is left
untouched. -/
theorem updateRequirements_cased_marker_witness :
    (updateRequirements id ⟨id, "", true⟩ true "d" false
        (fun q => if q = "d" ++ "/" ++ "Requirements.TXT" then some "x" else none)).fs =
      (⟨id, "", true⟩ : CmdBehavior).effect
        (fun q => if q = "d" ++ "/" ++ "Requirements.TXT" then some "x" else none) ∧
    (updateRequirements id ⟨id, "", true⟩ true "d" false
        (fun q => if q = "d" ++ "/" ++ "Requirements.TXT" then some "x" else none)).fs
        ("d" ++ "/" ++ "Requirements.TXT") = some "x" ∧
    (updateRequirements id ⟨id, "", true⟩ true "d" false
        (fun q => if q = "d" ++ "/" ++ "Requirements.TXT" then some "x" else none)).result =
      .ok (((⟨id, "", true⟩ : CmdBehavior).effect
        (fun q => if q = "d" ++ "/" ++ "Requirements.TXT" then some "x" else none)
          (reqPath "d")).isSome) :=
  updateRequirements_cased_marker id ⟨id, "", true⟩ true "d" "Requirements.TXT" "x"
    (fun q => if q = "d" ++ "/" ++ "Requirements.TXT" then some "x" else none)
    (by decide) (by decide) (by decide) (by decide) rfl rfl

/-! ### The orchestrator (`main`, lines 23-144)

`main` is embedded as a function of the environment: whether `pipreqs`
is resolvable on the search path (used both by the initial
`runCmd("pipreqs", ["--version"], ".")` validation and by the later
`exec.LookPath` check), the outcome of the scan, the root argument, the
flags, and an abstract per-directory processing outcome.  Observable
actions (external command invocations, standard-error lines, directory
processing) are recorded as an event list. -/

/-- Observable events of a run of `main`. -/
inductive MainEvent where
  | invokeExternal (bin : String) (args : List String) (workDir : String) : MainEvent
  | toStderr (msg : String) : MainEvent
  | processDir (dir : String) : MainEvent
deriving DecidableEq

/-- Result of a run of `main`: process exit code, event list, the list
of directories actually dispatched to workers, and the two aggregate
counters. `poolSize` records the semaphore capacity (the clamped
concurrency) when the worker pool is reached. -/
structure MainResult where
  exitCode : Nat
  events : List MainEvent
  processed : List String
  updated : Nat
  errors : Nat
  poolSize : Option Int
deriving DecidableEq

/-- Insertion of a string into a sorted list, for `sort.Strings`. -/
def insertSorted (s : String) : List String → List String
  | [] => [s]
  | t :: rest => if s ≤ t then s :: t :: rest else t :: insertSorted s rest

/-- Model of `sort.Strings`: lexicographic insertion sort. -/
def sortStrings : List String → List String
  | [] => []
  | s :: rest => insertSorted s (sortStrings rest)

/-- Worker-loop accounting: the `updated` and `errors` counters after
processing every directory of the list (the counters are atomic in the
source, so their final values are the plain counts). -/
def tally (process : String → Except UpdateErr Bool) : List String → Nat × Nat
  | [] => (0, 0)
  | d :: rest =>
    let t := tally process rest
    match process d with
    | .ok true => (t.1 + 1, t.2)
    | .ok false => t
    | .error _ => (t.1, t.2 + 1)

/-- Shallow embedding of `main` after flag parsing (a root argument is
present and `--version` was not requested).  In source order: run
`pipreqs --version` (fatal exit 1 if the binary is unavailable), scan
(exit 1 on error), fall back to the root when no directory was found,
sort, reject concurrency below 1 (exit 2), clamp concurrency to 12,
re-check availability with `exec.LookPath` unless in dry-run mode
(exit 1), then process every directory and exit 0. -/
def mainRun (pipreqsAvailable : Bool) (scan : Except String (List String))
    (root : String) (dryRun : Bool) (concurrency : Int)
    (process : String → Except UpdateErr Bool) : MainResult :=
  let ev0 : List MainEvent := [.invokeExternal "pipreqs" ["--version"] "."]
  if ¬pipreqsAvailable then
    ⟨1, ev0, [], 0, 0, none⟩
  else
    match scan with
    | .error e => ⟨1, ev0 ++ [.toStderr ("error: " ++ e)], [], 0, 0, none⟩
    | .ok found =>
      let targets := if found = [] then [root] else found
      let dirs := sortStrings targets
      if concurrency < 1 then
        ⟨2, ev0 ++ [.toStderr "invalid --concurrency"], [], 0, 0, none⟩
      else
        let conc := if concurrency > 12 then 12 else concurrency
        if ¬dryRun ∧ ¬pipreqsAvailable then
          ⟨1, ev0 ++ [.toStderr "pipreqs not found in PATH"], [], 0, 0, none⟩
        else
          let t := tally process dirs
          ⟨0, ev0 ++ dirs.map .processDir, dirs, t.1, t.2, some conc⟩

/-- Membership is invariant under sorted insertion. -/
theorem mem_insertSorted (a s : String) (l : List String) :
    a ∈ insertSorted s l ↔ a = s ∨ a ∈ l := by
  induction l with
  | nil => simp [insertSorted]
  | cons t rest ih =>
    by_cases h : s ≤ t
    · simp [insertSorted, h]
    · simp [insertSorted, h, ih]
      tauto

/-- Membership is invariant under sorting. -/
theorem mem_sortStrings (a : String) (l : List String) :
    a ∈ sortStrings l ↔ a ∈ l := by
  induction l with
  | nil => simp [sortStrings]
  | cons s rest ih => simp [sortStrings, mem_insertSorted, ih]

/-- Check that a per-directory outcome is a failure. -/
def outcomeFailed (r : Except UpdateErr Bool) : Bool :=
  match r with
  | .error _ => true
  | .ok _ => false

/-- Check that a per-directory outcome reported a change. -/
def outcomeUpdated (r : Except UpdateErr Bool) : Bool :=
  match r with
  | .ok true => true
  | _ => false

/-- The worker-loop counters are exactly the number of changed and the
number of failed directories. -/
theorem tally_eq_counts (process : String → Except UpdateErr Bool) (l : List String) :
    tally process l =
      ((l.filter fun d => outcomeUpdated (process d)).length,
       (l.filter fun d => outcomeFailed (process d)).length) := by
  induction l with
  | nil => rfl
  | cons d rest ih =>
    cases hr : process d with
    | ok b =>
      cases b <;>
        simp [tally, ih, hr, List.filter, outcomeUpdated, outcomeFailed]
    | error e =>
      simp [tally, ih, hr, List.filter, outcomeUpdated, outcomeFailed]

/-- C7: when the scan discovers no marker directory, the root itself is
the single processed target. -/
theorem mainRun_empty_scan_uses_root (root : String) (dryRun : Bool) (c : Int)
    (process : String → Except UpdateErr Bool) (hc : 1 ≤ c) :
    (mainRun true (.ok []) root dryRun c process).processed = [root] ∧
    MainEvent.processDir root ∈ (mainRun true (.ok []) root dryRun c process).events ∧
    (mainRun true (.ok []) root dryRun c process).exitCode = 0 := by
  have hc2 : ¬ (c < 1) := by omega
  refine ⟨?_, ?_, ?_⟩ <;> simp [mainRun, hc2, sortStrings, insertSorted]

/-- Witness for C7 at a concrete root and concurrency. -/
theorem mainRun_empty_scan_uses_root_witness :
    (mainRun true (.ok []) "r" false 3 fun _ => .ok false).processed = ["r"] ∧
    MainEvent.processDir "r" ∈ (mainRun true (.ok []) "r" false 3 fun _ => .ok false).events ∧
    (mainRun true (.ok []) "r" false 3 fun _ => .ok false).exitCode = 0 :=
  mainRun_empty_scan_uses_root "r" false 3 (fun _ => .ok false) (by omega)

/-- C6: concurrency below 1 is a usage error (reported on standard
error, exit code 2, nothing processed), while any value above 12 is
silently clamped: a run requested at 50 is identical to one at 12. -/
theorem mainRun_concurrency_policy :
    (∀ (found : List String) (root : String) (dryRun : Bool) (c : Int)
       (process : String → Except UpdateErr Bool), c < 1 →
       (mainRun true (.ok found) root dryRun c process).exitCode = 2 ∧
       MainEvent.toStderr "invalid --concurrency" ∈
         (mainRun true (.ok found) root dryRun c process).events ∧
       (mainRun true (.ok found) root dryRun c process).processed = [] ∧
       (mainRun true (.ok found) root dryRun c process).updated = 0 ∧
       (mainRun true (.ok found) root dryRun c process).errors = 0 ∧
       (∀ d, MainEvent.processDir d ∉ (mainRun true (.ok found) root dryRun c process).events))
    ∧ (∀ (avail : Bool) (scan : Except String (List String)) (root : String)
        (dryRun : Bool) (process : String → Except UpdateErr Bool),
        mainRun avail scan root dryRun 50 process = mainRun avail scan root dryRun 12 process) := by
  constructor
  · intro found root dryRun c process hc
    refine ⟨?_, ?_, ?_, ?_, ?_, ?_⟩ <;> simp [mainRun, hc]
  · intro avail scan root dryRun process
    cases avail with
    | false => rfl
    | true =>
      cases scan with
      | error e => rfl
      | ok found =>
        simp only [mainRun]
        norm_num

/-- Witness for C6: requesting 0 on a concrete run exits 2 with nothing
processed, and requesting 50 equals requesting 12. -/
theorem mainRun_concurrency_policy_witness :
    ((mainRun true (.ok ["d"]) "r" false 0 fun _ => .ok false).exitCode = 2 ∧
     MainEvent.toStderr "invalid --concurrency" ∈
       (mainRun true (.ok ["d"]) "r" false 0 fun _ => .ok false).events ∧
     (mainRun true (.ok ["d"]) "r" false 0 fun _ => .ok false).processed = [] ∧
     (mainRun true (.ok ["d"]) "r" false 0 fun _ => .ok false).updated = 0 ∧
     (mainRun true (.ok ["d"]) "r" false 0 fun _ => .ok false).errors = 0 ∧
     (∀ d, MainEvent.processDir d ∉
       (mainRun true (.ok ["d"]) "r" false 0 fun _ => .ok false).events)) ∧
    mainRun true (.ok ["d"]) "r" false 50 (fun _ => .ok false) =
      mainRun true (.ok ["d"]) "r" false 12 (fun _ => .ok false) :=
  ⟨mainRun_concurrency_policy.1 ["d"] "r" false 0 (fun _ => .ok false) (by omega),
   mainRun_concurrency_policy.2 true (.ok ["d"]) "r" false (fun _ => .ok false)⟩

/-- Counterexample for C5: a dry-run with `pipreqs` missing from the
search path still invokes the external command (`pipreqs --version`) and
exits fatally with code 1, although the claim says the check is skipped
and no invocation happens in dry-run mode. -/
theorem mainRun_dryRun_invokes_pipreqs :
    (mainRun false (.ok ["d"]) "r" true 12 fun _ => .ok false).exitCode = 1 ∧
    MainEvent.invokeExternal "pipreqs" ["--version"] "." ∈
      (mainRun false (.ok ["d"]) "r" true 12 fun _ => .ok false).events := by
  decide

/-- C5 (amended): only the `exec.LookPath` re-check before launching the
workers is conditional on live mode; the program unconditionally invokes
`pipreqs --version` at startup in every run, so absence of the external
command is a fatal exit-code-1 error before any directory work in both
dry-run and live mode. -/
theorem mainRun_missing_pipreqs_fatal (avail : Bool) (scan : Except String (List String))
    (root : String) (dryRun : Bool) (c : Int)
    (process : String → Except UpdateErr Bool) :
    (avail = false →
      (mainRun avail scan root dryRun c process).exitCode = 1 ∧
      (mainRun avail scan root dryRun c process).processed = []) ∧
    MainEvent.invokeExternal "pipreqs" ["--version"] "." ∈
      (mainRun avail scan root dryRun c process).events := by
  constructor
  · intro h
    subst h
    exact ⟨rfl, rfl⟩
  · cases avail with
    | false => simp [mainRun]
    | true =>
      cases scan with
      | error e => simp [mainRun]
      | ok found =>
        by_cases h1 : c < 1 <;> simp [mainRun, h1]

/-- Witness for C5 (amended) at a concrete unavailable environment. -/
theorem mainRun_missing_pipreqs_fatal_witness :
    ((mainRun false (.ok ["d"]) "r" false 3 fun _ => .ok false).exitCode = 1 ∧
     (mainRun false (.ok ["d"]) "r" false 3 fun _ => .ok false).processed = []) ∧
    MainEvent.invokeExternal "pipreqs" ["--version"] "." ∈
      (mainRun false (.ok ["d"]) "r" false 3 fun _ => .ok false).events :=
  ⟨(mainRun_missing_pipreqs_fatal false (.ok ["d"]) "r" false 3 fun _ => .ok false).1 rfl,
   (mainRun_missing_pipreqs_fatal false (.ok ["d"]) "r" false 3 fun _ => .ok false).2⟩

/-- C3: a non-zero exit of the external command makes the processor fail
with the captured output attached; the renamed-away original stays at
the backup name (for a command that touches only the marker path) with
no rollback; at the orchestrator level every directory is still
processed, the error counter counts exactly the failing directories, the
updated counter is untouched by them, and the final exit code is 0. -/
theorem pipreqs_failure_isolated :
    (∀ (hash : String → String) (cmd : CmdBehavior) (dir : String) (fs : FS) (a : String),
      cmd.exitOk = false → fs (reqPath dir) = some a →
      (updateRequirements hash cmd true dir false fs).result = .error (.cmdFailed cmd.output) ∧
      (updateRequirements hash cmd true dir false fs).fs =
        cmd.effect (fsRename (fsRemove fs (backupPath dir)) (reqPath dir) (backupPath dir)) ∧
      ((∀ (g : FS) (p : String), p ≠ reqPath dir → cmd.effect g p = g p) →
        (updateRequirements hash cmd true dir false fs).fs (backupPath dir) = some a))
    ∧ (∀ (found : List String) (root : String) (dryRun : Bool) (c : Int)
        (process : String → Except UpdateErr Bool), 1 ≤ c →
        (mainRun true (.ok found) root dryRun c process).exitCode = 0 ∧
        (mainRun true (.ok found) root dryRun c process).errors =
          ((mainRun true (.ok found) root dryRun c process).processed.filter
            fun d => outcomeFailed (process d)).length ∧
        (mainRun true (.ok found) root dryRun c process).updated =
          ((mainRun true (.ok found) root dryRun c process).processed.filter
            fun d => outcomeUpdated (process d)).length ∧
        (∀ d ∈ found, d ∈ (mainRun true (.ok found) root dryRun c process).processed)) := by
  constructor
  · intro hash cmd dir fs a hfail hpre
    refine ⟨?_, ?_, ?_⟩
    · simp [updateRequirements, hpre, afterCmd, hfail]
    · simp [updateRequirements, hpre, afterCmd, hfail]
    · intro hfr
      have h2 : (updateRequirements hash cmd true dir false fs).fs =
          cmd.effect (fsRename (fsRemove fs (backupPath dir)) (reqPath dir) (backupPath dir)) := by
        simp [updateRequirements, hpre, afterCmd, hfail]
      rw [h2, hfr _ _ (Ne.symm (reqPath_ne_backupPath dir))]
      simp [fsRename, fsRemove, hpre, reqPath_ne_backupPath dir]
  · intro found root dryRun c process hc
    have hc2 : ¬ (c < 1) := by omega
    refine ⟨?_, ?_, ?_, ?_⟩
    · simp [mainRun, hc2]
    · simp [mainRun, hc2, tally_eq_counts]
    · simp [mainRun, hc2, tally_eq_counts]
    · intro d hd
      have hne : found ≠ [] := by
        intro h
        rw [h] at hd
        exact absurd hd (List.not_mem_nil d)
      simp [mainRun, hc2, mem_sortStrings, hne, hd]

/-- Witness for C3: a command that writes nothing and exits non-zero
with output boom, on a directory whose marker holds x; and a concrete
run where exactly one of two directories fails. -/
theorem pipreqs_failure_isolated_witness :
    ((updateRequirements id ⟨id, "boom", false⟩ true "d" false
        (fun q => if q = reqPath "d" then some "x" else none)).result =
      .error (.cmdFailed "boom") ∧
     (updateRequirements id ⟨id, "boom", false⟩ true "d" false
        (fun q => if q = reqPath "d" then some "x" else none)).fs =
       (⟨id, "boom", false⟩ : CmdBehavior).effect
         (fsRename (fsRemove (fun q => if q = reqPath "d" then some "x" else none)
           (backupPath "d")) (reqPath "d") (backupPath "d")) ∧
     ((∀ (g : FS) (p : String), p ≠ reqPath "d" →
         (⟨id, "boom", false⟩ : CmdBehavior).effect g p = g p) →
       (updateRequirements id ⟨id, "boom", false⟩ true "d" false
         (fun q => if q = reqPath "d" then some "x" else none)).fs (backupPath "d") = some "x")) ∧
    ((mainRun true (.ok ["d1", "d2"]) "r" false 3
        (fun d => if d = "d1" then .error (.cmdFailed "boom") else .ok false)).exitCode = 0 ∧
     (mainRun true (.ok ["d1", "d2"]) "r" false 3
        (fun d => if d = "d1" then .error (.cmdFailed "boom") else .ok false)).errors =
       ((mainRun true (.ok ["d1", "d2"]) "r" false 3
          (fun d => if d = "d1" then .error (.cmdFailed "boom") else .ok false)).processed.filter
         fun d => outcomeFailed
           ((fun d => if d = "d1" then .error (.cmdFailed "boom") else .ok false) d)).length ∧
     (mainRun true (.ok ["d1", "d2"]) "r" false 3
        (fun d => if d = "d1" then .error (.cmdFailed "boom") else .ok false)).updated =
       ((mainRun true (.ok ["d1", "d2"]) "r" false 3
          (fun d => if d = "d1" then .error (.cmdFailed "boom") else .ok false)).processed.filter
         fun d => outcomeUpdated
           ((fun d => if d = "d1" then .error (.cmdFailed "boom") else .ok false) d)).length ∧
     (∀ d ∈ ["d1", "d2"], d ∈ (mainRun true (.ok ["d1", "d2"]) "r" false 3
        (fun d => if d = "d1" then .error (.cmdFailed "boom") else .ok false)).processed)) :=
  ⟨pipreqs_failure_isolated.1 id ⟨id, "boom", false⟩ "d"
      (fun q => if q = reqPath "d" then some "x" else none) "x" rfl (by decide),
   pipreqs_failure_isolated.2 ["d1", "d2"] "r" false 3
      (fun d => if d = "d1" then .error (.cmdFailed "boom") else .ok false) (by omega)⟩

/-! ### The tree scanner (`findRequirementsDirs`, lines 146-197)

The filesystem tree is a rose tree of named files and directories.
Directory paths are lists of name components relative to the root (the
root itself is `[]`).  In the source, an entry's depth is the number of
path separators in its path relative to the root; for a child of the
directory at component path `dp` that count is `dp.length`.  An entry
deeper than `maxDepth` is skipped, and a whole subtree is pruned when
the entry is a directory (`fs.SkipDir`); a negative `maxDepth` disables
the limit. -/

/-- A node of the scanned tree: a file or a directory with children. -/
inductive FSNode where
  | file (name : String) : FSNode
  | dir (name : String) (children : List FSNode) : FSNode

/-- The marker file name the scanner looks for. -/
def markerName : String := "requirements.txt"

/-- Walk of the entries of the directory at component path `dp`
(`filepath.WalkDir` restricted to this subtree): each entry is
depth-checked; a matching file contributes its containing directory
path; a directory entry is recursed into (or pruned entirely when too
deep). -/
def walkList (maxDepth : Int) : List String → List FSNode → List (List String)
  | _, [] => []
  | dp, FSNode.file n :: rest =>
      (if 0 ≤ maxDepth ∧ (dp.length : Int) > maxDepth then []
       else if eqFold n markerName then [dp] else [])
      ++ walkList maxDepth dp rest
  | dp, FSNode.dir n cs :: rest =>
      (if 0 ≤ maxDepth ∧ (dp.length : Int) > maxDepth then []
       else walkList maxDepth (dp ++ [n]) cs)
      ++ walkList maxDepth dp rest

/-- De-duplication pass of the scanner: keep the first occurrence of
each directory, tracking the already-seen set. -/
def dedupAux (seen : List (List String)) : List (List String) → List (List String)
  | [] => []
  | d :: rest =>
      if d ∈ seen then dedupAux seen rest
      else d :: dedupAux (d :: seen) rest

/-- Shallow embedding of `findRequirementsDirs`: a root that is not a
directory is an error; otherwise the walk's matches are de-duplicated. -/
def findRequirementsDirs (root : FSNode) (maxDepth : Int) :
    Except String (List (List String)) :=
  match root with
  | .file _ => .error "path is not a directory"
  | .dir _ cs => .ok (dedupAux [] (walkList maxDepth [] cs))

/-- Specification-side predicate: the list of entries `cs` contains a
marker file at relative component path `p` — either directly (`p = []`
and some file child case-folds to the marker name) or inside the child
directory named by the head of `p`. -/
inductive MarkerIn : List FSNode → List String → Prop where
  | here {cs : List FSNode} {m : String} :
      FSNode.file m ∈ cs → eqFold m markerName = true → MarkerIn cs []
  | there {cs : List FSNode} {m : String} {cs2 : List FSNode} {p : List String} :
      FSNode.dir m cs2 ∈ cs → MarkerIn cs2 p → MarkerIn cs (m :: p)

/-- Specification-side predicate on whole trees: the tree has a
directory at relative path `p` that directly contains a marker file
(case-insensitively).  The depth of that directory is `p.length`. -/
def MarkerAt : FSNode → List String → Prop
  | .file _, _ => False
  | .dir _ cs, p => MarkerIn cs p

/-- No marker can be found among no entries. -/
theorem markerIn_nil (p : List String) : ¬ MarkerIn [] p := by
  intro h
  cases h with
  | here hmem _ => exact absurd hmem (List.not_mem_nil _)
  | there hmem _ => exact absurd hmem (List.not_mem_nil _)

/-- Inversion of `MarkerIn` at a file entry. -/
theorem markerIn_cons_file {n : String} {rest : List FSNode} {p : List String} :
    MarkerIn (FSNode.file n :: rest) p ↔
      (p = [] ∧ eqFold n markerName = true) ∨ MarkerIn rest p := by
  constructor
  · intro h
    cases h with
    | here hmem hf =>
      rcases List.mem_cons.mp hmem with heq | hmem2
      · injection heq with h1
        subst h1
        exact Or.inl ⟨rfl, hf⟩
      · exact Or.inr (MarkerIn.here hmem2 hf)
    | there hmem hm =>
      rcases List.mem_cons.mp hmem with heq | hmem2
      · cases heq
      · exact Or.inr (MarkerIn.there hmem2 hm)
  · rintro (⟨rfl, hf⟩ | h)
    · exact MarkerIn.here (List.mem_cons_self _ _) hf
    · cases h with
      | here hmem hf => exact MarkerIn.here (List.mem_cons_of_mem _ hmem) hf
      | there hmem hm => exact MarkerIn.there (List.mem_cons_of_mem _ hmem) hm

/-- Inversion of `MarkerIn` at a directory entry. -/
theorem markerIn_cons_dir {n : String} {cs2 rest : List FSNode} {p : List String} :
    MarkerIn (FSNode.dir n cs2 :: rest) p ↔
      (∃ p2, p = n :: p2 ∧ MarkerIn cs2 p2) ∨ MarkerIn rest p := by
  constructor
  · intro h
    cases h with
    | here hmem hf =>
      rcases List.mem_cons.mp hmem with heq | hmem2
      · cases heq
      · exact Or.inr (MarkerIn.here hmem2 hf)
    | there hmem hm =>
      rcases List.mem_cons.mp hmem with heq | hmem2
      · injection heq with h1 h2
        subst h1
        subst h2
        exact Or.inl ⟨_, rfl, hm⟩
      · exact Or.inr (MarkerIn.there hmem2 hm)
  · rintro (⟨p2, rfl, hm⟩ | h)
    · exact MarkerIn.there (List.mem_cons_self _ _) hm
    · cases h with
      | here hmem hf => exact MarkerIn.here (List.mem_cons_of_mem _ hmem) hf
      | there hmem hm => exact MarkerIn.there (List.mem_cons_of_mem _ hmem) hm

/-- Characterization of the walk: a path is collected iff it extends the
current directory path by the relative path of a marker-holding
directory whose marker file passes the depth check (the checks on the
ancestor directories are implied by the check on the file itself). -/
theorem mem_walkList (maxDepth : Int) (dp : List String) (cs : List FSNode)
    (q : List String) :
    q ∈ walkList maxDepth dp cs ↔
      ∃ p, q = dp ++ p ∧ MarkerIn cs p ∧
        (maxDepth < 0 ∨ ((dp.length : Int) + p.length ≤ maxDepth)) := by
  induction dp, cs using walkList.induct maxDepth with
  | case1 dp =>
    simp only [walkList, List.not_mem_nil, false_iff]
    rintro ⟨p, _, hm, _⟩
    exact markerIn_nil p hm
  | case2 dp n rest ih =>
    simp only [walkList, List.mem_append, ih, markerIn_cons_file]
    by_cases hC : 0 ≤ maxDepth ∧ (dp.length : Int) > maxDepth
    · rw [if_pos hC]
      simp only [List.not_mem_nil, false_or]
      constructor
      · rintro ⟨p, hq, hm, hd⟩
        exact ⟨p, hq, Or.inr hm, hd⟩
      · rintro ⟨p, hq, hor, hd⟩
        rcases hor with ⟨rfl, _⟩ | hm
        · exfalso
          simp only [List.length_nil] at hd
          push_cast at hd
          omega
        · exact ⟨p, hq, hm, hd⟩
    · rw [if_neg hC]
      by_cases hf : eqFold n markerName = true
      · rw [if_pos hf]
        simp only [List.mem_singleton]
        constructor
        · rintro (rfl | ⟨p, hq, hm, hd⟩)
          · refine ⟨[], by simp, Or.inl ⟨rfl, hf⟩, ?_⟩
            simp only [List.length_nil]
            push_cast
            omega
          · exact ⟨p, hq, Or.inr hm, hd⟩
        · rintro ⟨p, hq, hor, hd⟩
          rcases hor with ⟨rfl, _⟩ | hm
          · left
            simpa using hq
          · right
            exact ⟨p, hq, hm, hd⟩
      · rw [if_neg hf]
        simp only [List.not_mem_nil, false_or]
        constructor
        · rintro ⟨p, hq, hm, hd⟩
          exact ⟨p, hq, Or.inr hm, hd⟩
        · rintro ⟨p, hq, hor, hd⟩
          rcases hor with ⟨rfl, hff⟩ | hm
          · exact absurd hff hf
          · exact ⟨p, hq, hm, hd⟩
  | case3 dp n cs2 rest ih1 ih2 =>
    simp only [walkList, List.mem_append, ih2, markerIn_cons_dir]
    by_cases hC : 0 ≤ maxDepth ∧ (dp.length : Int) > maxDepth
    · rw [if_pos hC]
      simp only [List.not_mem_nil, false_or]
      constructor
      · rintro ⟨p, hq, hm, hd⟩
        exact ⟨p, hq, Or.inr hm, hd⟩
      · rintro ⟨p, hq, hor, hd⟩
        rcases hor with ⟨p2, rfl, hm⟩ | hm
        · exfalso
          simp only [List.length_cons] at hd
          push_cast at hd
          omega
        · exact ⟨p, hq, hm, hd⟩
    · rw [if_neg hC, ih1]
      constructor
      · rintro (⟨p2, hq, hm, hd⟩ | ⟨p, hq, hm, hd⟩)
        · refine ⟨n :: p2, ?_, Or.inl ⟨p2, rfl, hm⟩, ?_⟩
          · simpa [List.append_assoc] using hq
          · simp only [List.length_append, List.length_cons, List.length_nil] at hd ⊢
            push_cast at hd ⊢
            omega
        · exact ⟨p, hq, Or.inr hm, hd⟩
      · rintro ⟨p, hq, hor, hd⟩
        rcases hor with ⟨p2, rfl, hm⟩ | hm
        · left
          refine ⟨p2, ?_, hm, ?_⟩
          · simpa [List.append_assoc] using hq
          · simp only [List.length_append, List.length_cons, List.length_nil] at hd ⊢
            push_cast at hd ⊢
            omega
        · right
          exact ⟨p, hq, hm, hd⟩

/-- Membership after de-duplication: kept iff present and not already
seen. -/
theorem mem_dedupAux (l : List (List String)) :
    ∀ (seen : List (List String)) (a : List String),
      a ∈ dedupAux seen l ↔ a ∈ l ∧ a ∉ seen := by
  induction l with
  | nil => simp [dedupAux]
  | cons d rest ih =>
    intro seen a
    by_cases hd : d ∈ seen
    · rw [show dedupAux seen (d :: rest) = dedupAux seen rest from by
        simp [dedupAux, hd]]
      rw [ih]
      simp only [List.mem_cons]
      constructor
      · rintro ⟨h1, h2⟩
        exact ⟨Or.inr h1, h2⟩
      · rintro ⟨h1, h2⟩
        rcases h1 with rfl | h1
        · exact absurd hd h2
        · exact ⟨h1, h2⟩
    · rw [show dedupAux seen (d :: rest) = d :: dedupAux (d :: seen) rest from by
        simp [dedupAux, hd]]
      simp only [List.mem_cons, ih]
      constructor
      · rintro (rfl | ⟨h1, h2⟩)
        · exact ⟨Or.inl rfl, hd⟩
        · exact ⟨Or.inr h1, fun hs => h2 (Or.inr hs)⟩
      · rintro ⟨h1, h2⟩
        by_cases had : a = d
        · exact Or.inl had
        · rcases h1 with rfl | h1
          · exact Or.inl rfl
          · refine Or.inr ⟨h1, fun hs => ?_⟩
            rcases hs with h3 | h3
            · exact had h3
            · exact h2 h3

/-- De-duplication produces a list without duplicates. -/
theorem nodup_dedupAux (l : List (List String)) :
    ∀ seen : List (List String), (dedupAux seen l).Nodup := by
  induction l with
  | nil => simp [dedupAux]
  | cons d rest ih =>
    intro seen
    by_cases hd : d ∈ seen
    · simpa [dedupAux, if_pos hd] using ih seen
    · simp only [dedupAux, if_neg hd, List.nodup_cons]
      refine ⟨?_, ih (d :: seen)⟩
      rw [mem_dedupAux]
      rintro ⟨_, h2⟩
      exact h2 (List.mem_cons_self _ _)

/-- C2: on a directory root, the scanner returns without duplicates
exactly the relative paths of the directories that directly contain a
case-insensitively named marker file and whose depth (component count,
equal to the separator count of the marker file's relative path) is at
most `maxDepth`, a negative `maxDepth` disabling the limit; a root that
is not a directory is an error. -/
theorem findRequirementsDirs_spec (t : FSNode) (maxDepth : Int) :
    (∀ out, findRequirementsDirs t maxDepth = .ok out →
      out.Nodup ∧
      ∀ p, p ∈ out ↔ (MarkerAt t p ∧ (maxDepth < 0 ∨ (p.length : Int) ≤ maxDepth)))
    ∧ (∀ n, t = FSNode.file n → ∃ e, findRequirementsDirs t maxDepth = .error e) := by
  constructor
  · intro out hout
    cases t with
    | file nm => exact absurd hout (by simp [findRequirementsDirs])
    | dir nm cs =>
      simp only [findRequirementsDirs, Except.ok.injEq] at hout
      subst hout
      refine ⟨nodup_dedupAux _ _, ?_⟩
      intro p
      rw [mem_dedupAux, mem_walkList]
      simp only [List.nil_append, List.not_mem_nil, not_false_iff, and_true]
      constructor
      · rintro ⟨p2, rfl, hm, hd⟩
        exact ⟨hm, by simpa using hd⟩
      · rintro ⟨hm, hd⟩
        exact ⟨p, rfl, hm, by simpa using hd⟩
  · intro n ht
    subst ht
    exact ⟨_, rfl⟩

/-- Witness for C2: the end-to-end scenario with marker files at `a` and
`b/c` and max depth 1, where only `a` is discovered. -/
theorem findRequirementsDirs_spec_witness :
    List.Nodup [["a"]] ∧
    ∀ p, p ∈ [["a"]] ↔
      (MarkerAt
        (.dir "root"
          [.dir "a" [.file "requirements.txt"],
           .dir "b" [.dir "c" [.file "requirements.txt"]]]) p ∧
       ((1 : Int) < 0 ∨ (p.length : Int) ≤ 1)) :=
  (findRequirementsDirs_spec
      (.dir "root"
        [.dir "a" [.file "requirements.txt"],
         .dir "b" [.dir "c" [.file "requirements.txt"]]]) 1).1
    [["a"]] (by
      simp only [findRequirementsDirs, walkList]
      exact congrArg Except.ok (by decide))

/-! ### The progress reporter's state map

Modelled from the spec: the progress-display implementation referenced
by `main` (the comments about the progress display and the cancellation
context) is not among the provided sources.  Per the spec, it maintains
a map from directory path to one of three states, Waiting, Active and
Done, guarded by a mutual-exclusion lock; the lock makes every state
update atomic, which the model reflects by making each transition a
single step of a reachability relation. -/

/-- Modelled from the spec: the per-directory progress states. -/
inductive ProgState where
  | waiting : ProgState
  | active : ProgState
  | done : ProgState
deriving DecidableEq

/-- Position of a progress state in the lifecycle order. -/
def progRank : ProgState → Nat
  | .waiting => 0
  | .active => 1
  | .done => 2

/-- Modelled from the spec: the legal transitions of one directory's
progress state — a worker marks a Waiting directory Active when it picks
it up and an Active directory Done when it finishes. -/
inductive ProgStep : ProgState → ProgState → Prop where
  | start : ProgStep .waiting .active
  | finish : ProgStep .active .done

/-- Modelled from the spec: the progress maps reachable during a run.
Every directory starts Waiting, and each atomic update (performed under
the lock) applies one legal transition to one directory. -/
inductive ProgReachable : (String → ProgState) → Prop where
  | init : ProgReachable (fun _ => ProgState.waiting)
  | step {m : String → ProgState} {d : String} {s : ProgState} :
      ProgReachable m → ProgStep (m d) s →
      ProgReachable (fun x => if x = d then s else m x)

/-- C8: every transition moves a directory exactly one step forward in
Waiting → Active → Done (no state is skipped and none reverts), and an
atomic update of one directory from a reachable map never lowers any
directory's state. -/
theorem progress_monotone :
    (∀ s t : ProgState, ProgStep s t →
      ((s = .waiting ∧ t = .active) ∨ (s = .active ∧ t = .done)) ∧
      progRank t = progRank s + 1)
    ∧ (∀ (m : String → ProgState) (d : String) (s : ProgState),
        ProgReachable m → ProgStep (m d) s →
        ∀ x, progRank (m x) ≤ progRank ((fun y => if y = d then s else m y) x)) := by
  constructor
  · intro s t h
    cases h with
    | start => exact ⟨Or.inl ⟨rfl, rfl⟩, rfl⟩
    | finish => exact ⟨Or.inr ⟨rfl, rfl⟩, rfl⟩
  · have key : ∀ a b : ProgState, ProgStep a b → progRank a ≤ progRank b := by
      intro a b hab
      cases hab <;> simp [progRank]
    intro m d s _ h x
    by_cases hx : x = d
    · subst hx
      simp only [if_pos rfl]
      exact key _ _ h
    · simp [hx]

/-- Witness for C8: a single directory stepping from Waiting to Active
out of the initial map. -/
theorem progress_monotone_witness :
    (((ProgState.waiting = .waiting ∧ ProgState.active = .active) ∨
      (ProgState.waiting = .active ∧ ProgState.active = .done)) ∧
     progRank .active = progRank .waiting + 1) ∧
    (∀ x, progRank ((fun _ => ProgState.waiting) x) ≤
      progRank ((fun y => if y = "d" then ProgState.active
        else (fun _ => ProgState.waiting) y) x)) :=
  ⟨progress_monotone.1 .waiting .active ProgStep.start,
   progress_monotone.2 (fun _ => ProgState.waiting) "d" .active
     ProgReachable.init ProgStep.start⟩

end QuickPipreqs
